import Mathlib

/-!
Verification of the Odyssey MSLA printer controller against its
natural-language specification.

The definitions below are a shallow embedding of the Rust sources:
`src/display.rs` (pixel re-encoder), `src/sl1.rs` (SL1 archive reader),
`src/gcode.rs` (templated motion protocol), `src/serial_handler.rs`
(internal comms handler) and `src/printer.rs` (print state machine).

Machine integers are modelled as `Nat` with explicit wrapping: `u8`
arithmetic wraps modulo 256 and `u64` shift amounts are masked modulo 64,
matching the release-build semantics of the Rust operators used by the
code.  Floating point quantities (`f64`) are modelled as exact rationals.
-/

namespace Odyssey

/-! ## Pixel re-encoder (src/display.rs) -/

/-- Pixel format of the mask display: ordered sub-pixel bit widths plus
left/right padding bit counts.  The struct is declared in the
configuration module; its three fields (`bit_depth : Vec<u8>`,
`left_pad_bits : u8`, `right_pad_bits : u8`) are exactly those
constructed and consumed in `src/display.rs`. -/
structure PixelFormat where
  bit_depth : List Nat
  left_pad_bits : Nat
  right_pad_bits : Nat
deriving DecidableEq, Repr

/-- Wrapping `u8` subtraction: `a - b` modulo 256. -/
def u8sub (a b : Nat) : Nat := (a % 256 + 256 - b % 256) % 256

/-- `u64` right shift; the shift amount is masked modulo 64 as in Rust
release builds. -/
def shr64 (x s : Nat) : Nat := (x % 2 ^ 64) >>> (s % 64)

/-- `u64` left shift with the shift amount masked modulo 64 and the
result truncated to 64 bits. -/
def shl64 (x s : Nat) : Nat := ((x % 2 ^ 64) <<< (s % 64)) % 2 ^ 64

/-- The accumulator loop of `PrintDisplay::re_encode_pixel_group`: for
each pixel the shift counter drops by the sub-pixel width, the pixel is
truncated to its width (right shift by `src_depth - w`) and ORed into the
chunk at the shift position. -/
def encodeLoop (src_depth : Nat) : List (Nat × Nat) → Nat → Nat → Nat
  | [], _, raw => raw
  | (p, w) :: rest, shift, raw =>
    let shift' := u8sub shift w
    encodeLoop src_depth rest shift'
      (raw ||| shl64 (shr64 (p % 256) (u8sub src_depth w)) shift')

/-- Emission loop of `re_encode_pixel_group`: the raw chunk is pulled
apart into `chunk_size / 8` bytes, least-significant byte first. -/
def chunkBytes (raw chunk_size : Nat) : List Nat :=
  (List.range (chunk_size % 256 / 8)).map (fun i => shr64 raw (8 * i) % 256)

/-- `PrintDisplay::re_encode_pixel_group` from `src/display.rs`.  The
source indexes `pixel_format.bit_depth[i]` for `i < pixels.len()`; every
call site passes a pixel group of exactly `bit_depth.len()` pixels, which
the `zip` reflects. -/
def re_encode_pixel_group (pf : PixelFormat) (pixels : List Nat)
    (src_depth chunk_size : Nat) : List Nat :=
  chunkBytes
    (encodeLoop src_depth (pixels.zip pf.bit_depth)
      (u8sub chunk_size pf.left_pad_bits) 0)
    chunk_size

/-- The chunk size computed by `re_encode`: `left_pad + Σ W + right_pad`
as a `u8` sum (wrapping modulo 256). -/
def chunkSize (pf : PixelFormat) : Nat :=
  (pf.left_pad_bits + pf.bit_depth.sum + pf.right_pad_bits) % 256

/-- Fuel-driven model of `slice::chunks_exact(k)`: successive groups of
exactly `k` elements; a trailing remainder shorter than `k` is not
yielded.  The fuel (instantiated with the list length) only serves
termination; each step consumes at least one element. -/
def chunksAux : Nat → Nat → List Nat → List (List Nat)
  | 0, _, _ => []
  | fuel + 1, k, l =>
    if 0 < k ∧ k ≤ l.length then l.take k :: chunksAux fuel k (l.drop k)
    else []

/-- `buffer.chunks_exact(k)` as a list of complete groups. -/
def chunksExact (k : Nat) (l : List Nat) : List (List Nat) :=
  chunksAux l.length k l

/-- The general (non-fast-path) branch of `PrintDisplay::re_encode`:
split the buffer into groups of `bit_depth.len()` pixels and re-encode
each group into `chunkSize / 8` bytes. -/
def re_encode_general (pf : PixelFormat) (buffer : List Nat)
    (src_depth : Nat) : List Nat :=
  ((chunksExact pf.bit_depth.length buffer).map
    (fun group => re_encode_pixel_group pf group src_depth (chunkSize pf))).flatten

/-- `PrintDisplay::re_encode` from `src/display.rs`: the input buffer is
returned unchanged when the format has a single sub-pixel width equal to
the source bit depth; otherwise the general per-group encoding runs. -/
def re_encode (pf : PixelFormat) (buffer : List Nat) (src_depth : Nat) :
    List Nat :=
  if pf.bit_depth.length = 1 ∧ pf.bit_depth.getD 0 0 = src_depth then buffer
  else re_encode_general pf buffer src_depth

/-! ## SL1 archive reader (src/sl1.rs) -/

/-- The `config.ini` contents of an `.sl1` archive, as deserialized into
`PrintConfig` in `src/sl1.rs`.  Rust `f64` fields are modelled as exact
rationals, `usize` fields as `Nat`. -/
structure PrintConfig where
  action : String
  exp_time : Rat
  exp_time_first : Rat
  exp_user_profile : Nat
  file_creation_timestamp : String
  hollow : Nat
  job_dir : String
  layer_height : Rat
  material_name : String
  num_fade : Nat
  num_fast : Nat
  num_slow : Nat
  print_profile : String
  print_time : Rat
  printer_model : String
  printer_profile : String
  printer_variant : String
  prusa_slicer_version : String
  used_material : Rat
deriving DecidableEq, Repr

/-- `PrintConfig::exposure_time` from `src/sl1.rs`: the first `num_fade`
layers interpolate between the first-layer exposure and the nominal
exposure. -/
def PrintConfig.exposure_time (c : PrintConfig) (index : Nat) : Rat :=
  if index < c.num_fade then
    let fade_rate : Rat := ((c.num_fade - index : Nat) : Rat) / (c.num_fade : Rat)
    c.exp_time + (c.exp_time_first - c.exp_time) * fade_rate
  else c.exp_time

/-- A layer record handed to the printer (`printfile.rs::Layer`). -/
structure Layer where
  file_name : String
  data : List Nat
  exposure_time : Rat
deriving DecidableEq, Repr

/-- Lexicographic comparison of character lists, the order `sorted()`
uses on the frame names. -/
def lexLt : List Char → List Char → Bool
  | [], [] => false
  | [], _ :: _ => true
  | _ :: _, [] => false
  | a :: as, b :: bs =>
    if a < b then true else if b < a then false else lexLt as bs

/-- Rust `str::ends_with` on whole strings. -/
def strEndsWith (s suffix : String) : Bool :=
  suffix.toList.reverse.isPrefixOf s.toList.reverse

/-- Rust `str::contains(char)`. -/
def strContainsChar (s : String) (c : Char) : Bool := s.toList.contains c

/-- Insert a string into an already sorted list (ascending). -/
def insertString (x : String) : List String → List String
  | [] => [x]
  | y :: ys => bif lexLt y.toList x.toList then y :: insertString x ys
               else x :: y :: ys

/-- Itertools `sorted()` on the frame names, modelled as insertion
sort.  Only the multiset of elements matters for the properties proved
here. -/
def sortStrings (l : List String) : List String :=
  l.foldr insertString []

/-- `ZipArchive::by_name`: look an entry up by exact name.  The archive
itself is modelled as an association list from entry name to byte
contents; reading an entry is deterministic, so the `&mut self` of the
Rust reader is observationally pure. -/
def by_name (archive : List (String × List Nat)) (n : String) :
    Option (List Nat) :=
  (archive.find? (fun e => e.1 = n)).map (fun e => e.2)

/-- An opened `.sl1` archive: the parsed config, the archive contents and
the sorted frame list. -/
structure Sl1 where
  config : PrintConfig
  archive : List (String × List Nat)
  frame_list : List String
deriving DecidableEq, Repr

/-- Construction of the frame list in `TryFrom<FileMetadata> for Sl1`:
top-level `*.png` names of the archive, sorted. -/
def mkSl1 (config : PrintConfig) (archive : List (String × List Nat)) : Sl1 :=
  { config := config
    archive := archive
    frame_list :=
      sortStrings (((archive.map Prod.fst).filter
        (fun n => strEndsWith n ".png" && !(strContainsChar n '/')))) }

/-- `Sl1::get_layer_data` from `src/sl1.rs`: in-range indices read the
frame file and pair it with the per-layer exposure time; out-of-range
indices (or a missing archive entry) give `None`. -/
def Sl1.get_layer_data (s : Sl1) (index : Nat) : Option Layer :=
  if h : index < s.frame_list.length then
    match by_name s.archive (s.frame_list.get ⟨index, h⟩) with
    | some bytes =>
        some { file_name := s.frame_list.get ⟨index, h⟩
               data := bytes
               exposure_time := s.config.exposure_time index }
    | none => none
  else none

/-- `Sl1::get_layer_count`. -/
def Sl1.get_layer_count (s : Sl1) : Nat := s.frame_list.length

/-! ## Errors (src/error.rs) -/

/-- The five `ErrorType` variants of `OdysseyError`. -/
inductive ErrorType where
  | HardwareError
  | InternalStateError
  | ConfigurationError
  | PrintError
  | FileError
deriving DecidableEq, Repr

/-- How a gcode-level call can fail: either the process aborts through
the `panic!` in `Gcode::parse_gcode` (carrying the missing substitution
name and the template), or an `OdysseyError` of some `ErrorType` is
returned. -/
inductive OdFailure where
  | panicMissing (sub code : String)
  | err (t : ErrorType)
deriving DecidableEq, Repr

/-! ## Internal comms handler (src/serial_handler.rs) -/

/-- The pending lines on the two broadcast channels of
`InternalCommsHandler`.  `incoming` holds lines already buffered from the
serial reader; `outgoing` holds queued writes. -/
structure InternalCommsHandler where
  incoming : List String
  outgoing : List String
deriving DecidableEq, Repr

/-- Search for `n` as a contiguous sublist at any position of the
haystack. -/
def subSearch (n : List Char) : List Char → Bool
  | [] => decide (n = [])
  | c :: t => n.isPrefixOf (c :: t) || subSearch n t

/-- Rust `str::contains(substring)`. -/
def containsSub (hay needle : String) : Bool :=
  subSearch needle.toList hay.toList

/-- `InternalCommsHandler::flush_input`: drain the incoming buffer. -/
def flush_input (h : InternalCommsHandler) : InternalCommsHandler :=
  { h with incoming := [] }

/-- `InternalCommsHandler::send`: enqueue an outgoing message. -/
def sendMsg (h : InternalCommsHandler) (message : String) :
    InternalCommsHandler :=
  { h with outgoing := h.outgoing ++ [message] }

/-- `InternalCommsHandler::await_response` against the list of lines that
arrive before the timeout elapses: each received line is checked for the
expected substring; success on the first match, and a `HardwareError`
once the timeout fires with no match (modelled as the arrivals running
out).  The 100 ms re-check cadence of `_await_response` only paces the
loop in real time and is abstracted away. -/
def await_response (expected : String) : List String → Except ErrorType Unit
  | [] => .error .HardwareError
  | l :: rest =>
    if containsSub l expected then .ok () else await_response expected rest

/-- `InternalCommsHandler::send_and_await`: flush the incoming buffer,
enqueue the message, then await a line containing `expected` among the
lines arriving before the timeout. -/
def send_and_await (h : InternalCommsHandler) (message expected : String)
    (arrivals : List String) : InternalCommsHandler × Except ErrorType Unit :=
  (sendMsg (flush_input h) message, await_response expected arrivals)

/-! ## Templated gcode protocol (src/gcode.rs) -/

/-- `api_objects::PhysicalState`: authoritative Z in microns, derived Z
in millimetres, and the curing flag. -/
structure PhysicalState where
  z : Rat
  z_microns : Nat
  curing : Bool
deriving DecidableEq, Repr

/-- `Gcode::set_position` on the mirrored state: store the micron
position and derive the millimetre position. -/
def setPosition (p : PhysicalState) (position : Nat) : PhysicalState :=
  { p with z_microns := position, z := (position : Rat) / 1000 }

/-- `Gcode::set_curing` on the mirrored state. -/
def setCuring (p : PhysicalState) (curing : Bool) : PhysicalState :=
  { p with curing := curing }

/-- The command templates of `configuration::GcodeConfig` used by the
motion protocol (string-valued fields only; `move_timeout` is the
timeout in seconds for the move-sync await). -/
structure GcodeConfig where
  boot : String
  shutdown_command : String
  home_command : String
  move_command : String
  manual_move_command : Option String
  print_start : String
  print_end : String
  layer_start : String
  cure_start : String
  cure_end : String
  move_sync : String
  move_timeout : Nat
  status_check : String
  status_desired : String
deriving DecidableEq, Repr

/-- The `Gcode` struct: configuration, mirrored physical state, the
variable map for template substitution (a `HashMap<String, String>`,
modelled as an association list with insert-overwrites semantics) and the
comms handler. -/
structure Gcode where
  config : GcodeConfig
  state : PhysicalState
  gcode_substitutions : List (String × String)
  serial_comms : InternalCommsHandler
deriving DecidableEq, Repr

/-- `HashMap::insert`: overwrite the binding of `k` or append it. -/
def insertSub (k v : String) : List (String × String) → List (String × String)
  | [] => [(k, v)]
  | (k', v') :: rest =>
    if k' = k then (k, v) :: rest else (k', v') :: insertSub k v rest

/-- `HashMap::get`. -/
def lookupSub (subs : List (String × String)) (k : String) : Option String :=
  (subs.find? (fun e => e.1 = k)).map (fun e => e.2)

/-- `HashMap::remove`. -/
def removeSub (k : String) (subs : List (String × String)) :
    List (String × String) :=
  subs.filter (fun e => ¬ e.1 = k)

/-- A word character of the `regex` crate's `\w` class (ASCII range). -/
def isWordChar (c : Char) : Bool := c.isAlphanum || c = '_'

/-- Scanner for the regex `\x7b(?P<substitution>\w*)\x7d` used by
`Gcode::parse_gcode`: leftmost, non-overlapping matches; at a `{` the
longest run of word characters must be closed by `}`, otherwise the scan
resumes one character further.  The fuel argument (instantiated with the
text length) only serves termination. -/
def scanAux : Nat → List Char → List String
  | 0, _ => []
  | _ + 1, [] => []
  | fuel + 1, c :: rest =>
    if c = '{' then
      match rest.dropWhile isWordChar with
      | '}' :: tail => String.mk (rest.takeWhile isWordChar) :: scanAux fuel tail
      | _ => scanAux fuel rest
    else scanAux fuel rest

/-- All `\x7bname\x7d` capture names of a template, in order. -/
def scanCaptures (l : List Char) : List String := scanAux l.length l

/-- Rust `str::replace`: replace every non-overlapping occurrence of
`pat` left to right.  Fuel is the text length. -/
def replaceAux : Nat → List Char → List Char → List Char → List Char
  | _, [], _, _ => []
  | 0, s, _, _ => s
  | fuel + 1, c :: rest, pat, rep =>
    if pat ≠ [] ∧ pat.isPrefixOf (c :: rest) then
      rep ++ replaceAux fuel ((c :: rest).drop pat.length) pat rep
    else c :: replaceAux fuel rest pat rep

/-- `String::replace` on whole strings. -/
def replaceStr (s pat rep : String) : String :=
  String.mk (replaceAux s.toList.length s.toList pat.toList rep.toList)

/-- The token text `\x7bname\x7d` rebuilt for replacement, as in
`format!("\x7b\x7b\x7bsub\x7d\x7d\x7d")`. -/
def braced (n : String) : String := "\x7b" ++ n ++ "\x7d"

/-- The substitution loop of `Gcode::parse_gcode`: fold over the capture
names; a name bound in the map replaces all its occurrences, an unbound
name hits the `panic!`. -/
def substLoop (subs : List (String × String)) (code : String) :
    List String → String → Except OdFailure String
  | [], acc => .ok acc
  | n :: rest, acc =>
    match lookupSub subs n with
    | some v => substLoop subs code rest (replaceStr acc (braced n) v)
    | none => .error (.panicMissing n code)

/-- `Gcode::add_state_variables`: populate the reserved `curing` and `z`
variables from the mirrored physical state.  (The Rust code renders the
values with `to_string()`; the exact rendering of the rational `z` is
immaterial to the properties proved here.) -/
def add_state_variables (g : Gcode) : Gcode :=
  let subs :=
    insertSub "z" (toString g.state.z)
      (insertSub "curing" (if g.state.curing then "true" else "false")
        g.gcode_substitutions)
  { g with gcode_substitutions := subs }

/-- `Gcode::parse_gcode`: populate the state variables, then substitute
every captured `\x7bname\x7d` token; an unknown token panics. -/
def parse_gcode (g : Gcode) (code : String) :
    Gcode × Except OdFailure String :=
  let g' := add_state_variables g
  (g', substLoop g'.gcode_substitutions code (scanCaptures code.toList) code)

/-- `Gcode::send_and_await_gcode`: parse the template, append CRLF, then
`send_and_await` over the comms handler, wrapping comms-level errors. -/
def send_and_await_gcode (g : Gcode) (code expect : String)
    (arrivals : List String) : Gcode × Except OdFailure Unit :=
  match parse_gcode g code with
  | (g', .error f) => (g', .error f)
  | (g', .ok parsed) =>
    let (comms', res) :=
      send_and_await g'.serial_comms (parsed ++ "\r\n") expect arrivals
    ({ g' with serial_comms := comms' },
     match res with
     | .ok _ => .ok ()
     | .error t => .error (.err t))

/-- `HardwareControl::add_print_variable` for `Gcode`. -/
def add_print_variable (g : Gcode) (var value : String) : Gcode :=
  { g with gcode_substitutions := insertSub var value g.gcode_substitutions }

/-- `HardwareControl::remove_print_variable` for `Gcode`. -/
def remove_print_variable (g : Gcode) (var : String) : Gcode :=
  { g with gcode_substitutions := removeSub var g.gcode_substitutions }

/-- The command template selected by `Gcode::move_z`: the manual move
template when asked for and configured, the regular move template
otherwise. -/
def chooseMoveCommand (g : Gcode) (manual : Bool) : String :=
  match manual, g.config.manual_move_command with
  | true, some manual_move => manual_move
  | true, none => g.config.move_command
  | false, _ => g.config.move_command

/-- `Gcode::move_z` from `src/gcode.rs`: convert the speed to mm/min,
mirror the target position with `set_position`, set the `speed`
variable, then send the move template and await the `move_sync`
response; only on success is the `speed` variable removed.  `arrivals`
are the serial lines arriving before `move_timeout` elapses. -/
def move_z (g : Gcode) (z : Nat) (speed : Rat) (manual : Bool)
    (arrivals : List String) : Gcode × Except OdFailure PhysicalState :=
  let speed' := speed * 60
  let command := chooseMoveCommand g manual
  let g1 := { g with state := setPosition g.state z }
  let g2 := add_print_variable g1 "speed" (toString speed')
  match send_and_await_gcode g2 command g.config.move_sync arrivals with
  | (g3, .ok _) =>
    let g4 := remove_print_variable g3 "speed"
    (g4, .ok g4.state)
  | (g3, .error f) => (g3, .error f)

/-! ## Print state machine (src/printer.rs)

Operation-level semantics of `Printer::start_statemachine`.  Hardware
commands are taken to succeed (the error paths all lead to `Shutdown`
and are irrelevant to the properties proved here).  `print_data` in the
`Printing` variant is represented by its layer count, the only part of
the metadata the loop consults.  A `Printing` machine is `exposing`
between `start_curing` and `stop_curing` of `print_frame`; operations
are only drained by `printing_operation_handler` between frames, never
mid-frame, which the phase guard reflects. -/

/-- Where the hot loop stands inside a layer. -/
inductive Phase where
  | waiting
  | exposing
deriving DecidableEq, Repr

/-- `printer::PrinterState` with `print_data` abbreviated to its layer
count. -/
inductive PrinterState where
  | Shutdown : PrinterState
  | Idle (physical_state : PhysicalState) : PrinterState
  | Printing (paused : Bool) (layer : Nat) (layer_count : Nat)
      (physical_state : PhysicalState) : PrinterState
deriving DecidableEq, Repr

/-- The physical state carried by a printer state, as matched by
`Printer::get_physical_state` / `update_physical_state` (the `Shutdown`
variant carries none). -/
def physicalStateOf : PrinterState → Option PhysicalState
  | .Shutdown => none
  | .Idle p => some p
  | .Printing _ _ _ p => some p

/-- Whether a printer state is the `Printing` variant. -/
def isPrinting : PrinterState → Bool
  | .Printing _ _ _ _ => true
  | _ => false

/-- The joint state of the state machine and the gcode mirror: `hw` is
the `Gcode`-owned mirrored `PhysicalState`, `st` the published printer
state, `phase` the position inside the hot loop, and
`layer_height_microns` the layer height of the active file. -/
structure Machine where
  hw : PhysicalState
  st : PrinterState
  phase : Phase
  layer_height_microns : Nat
deriving DecidableEq, Repr

/-- The command alphabet together with the internal transitions of the
hot loop (`beginExposure` covers `start_layer`, the two moves and
`start_curing` of `print_frame`; `endExposure` covers `stop_curing` and
the layer bump; `endPrint` covers `end_print` when no frame remains). -/
inductive Event where
  | boot
  | queryState
  | startPrint (layer_count layer_height : Nat)
  | manualMove (z : Nat)
  | manualCure (cure : Bool)
  | pausePrint
  | resumePrint
  | stopPrint
  | shutdownOp
  | beginExposure
  | endExposure
  | endPrint
deriving DecidableEq, Repr

/-- One transition of the state machine.  Idle operations follow
`Printer::idle_operation_handler` (every wrapped hardware call copies
the returned mirror into the state via `update_physical_state`);
printing operations follow `Printer::printing_operation_handler` and
run only between frames; unmatched events leave the machine unchanged,
as the handlers drop them. -/
def step (m : Machine) (e : Event) : Machine :=
  match m.st with
  | .Shutdown =>
    match e with
    | .boot => { m with st := .Idle m.hw }
    | _ => m
  | .Idle p =>
    match e with
    | .startPrint n h =>
      { m with st := .Printing false 0 n p, layer_height_microns := h }
    | .manualMove z =>
      let hw' := setPosition m.hw z
      { m with hw := hw', st := .Idle hw' }
    | .manualCure cure =>
      let hw' := setCuring m.hw cure
      { m with hw := hw', st := .Idle hw' }
    | .shutdownOp => { m with st := .Shutdown }
    | _ => m
  | .Printing paused layer n p =>
    match m.phase with
    | .exposing =>
      match e with
      | .endExposure =>
        let hw' := setCuring m.hw false
        { m with hw := hw', st := .Printing paused (layer + 1) n hw',
                 phase := .waiting }
      | _ => m
    | .waiting =>
      match e with
      | .pausePrint => { m with st := .Printing true layer n p }
      | .resumePrint => { m with st := .Printing false layer n p }
      | .stopPrint => { m with st := .Idle p }
      | .shutdownOp => { m with st := .Shutdown }
      | .beginExposure =>
        if paused = false ∧ layer < n then
          let hw' :=
            setCuring (setPosition m.hw ((layer + 1) * m.layer_height_microns))
              true
          { m with hw := hw', st := .Printing paused layer n hw',
                   phase := .exposing }
        else m
      | .endPrint =>
        if paused = false ∧ n ≤ layer then { m with st := .Idle m.hw } else m
      | _ => m

/-- The machine as built by `Printer::new` and `Gcode::new`: shutdown
state, mirror at Z = 0 and not curing. -/
def initMachine : Machine :=
  { hw := { z := 0, z_microns := 0, curing := false }
    st := .Shutdown
    phase := .waiting
    layer_height_microns := 0 }

/-- Run a sequence of events from a machine. -/
def run (m : Machine) (evs : List Event) : Machine :=
  evs.foldl step m

/-- The states reachable from the initial machine. -/
inductive Reachable : Machine → Prop where
  | init : Reachable initMachine
  | step {m : Machine} (h : Reachable m) (e : Event) : Reachable (step m e)

/-! ## Supporting lemmas for the re-encoder -/

/-- A list of naturals bounded by 8 whose sum is 8 times its length is
constantly 8. -/
lemma eq_replicate_of_bounded_sum :
    ∀ l : List Nat, (∀ w ∈ l, w ≤ 8) → l.sum = 8 * l.length →
      l = List.replicate l.length 8 := by
  intro l
  induction l with
  | nil => intro _ _; rfl
  | cons a t ih =>
    intro h8 hsum
    have ha : a ≤ 8 := h8 a (by simp)
    have ht : ∀ w ∈ t, w ≤ 8 := fun w hw => h8 w (by simp [hw])
    have hts : t.sum ≤ t.length * 8 := by
      simpa using List.sum_le_card_nsmul t 8 ht
    have hsum' : a + t.sum = 8 * (t.length + 1) := by
      simpa [List.sum_cons, List.length_cons] using hsum
    have ha8 : a = 8 ∧ t.sum = 8 * t.length := by omega
    have := ih ht ha8.2
    simp [List.replicate, List.length_cons, ha8.1]
    exact this

/-- `chunksAux` is independent of the fuel, as long as the fuel covers
the list length. -/
lemma chunksAux_fuel (k : Nat) :
    ∀ (fuel fuel' : Nat) (l : List Nat), l.length ≤ fuel →
      l.length ≤ fuel' → chunksAux fuel k l = chunksAux fuel' k l := by
  intro fuel
  induction fuel with
  | zero =>
    intro fuel' l hl _
    have : l = [] := List.eq_nil_of_length_eq_zero (Nat.le_zero.mp hl)
    subst this
    cases fuel' with
    | zero => rfl
    | succ f => simp [chunksAux]; omega
  | succ f ih =>
    intro fuel' l hl hl'
    cases fuel' with
    | zero =>
      have : l = [] := List.eq_nil_of_length_eq_zero (Nat.le_zero.mp hl')
      subst this
      simp [chunksAux]; omega
    | succ f' =>
      by_cases hc : 0 < k ∧ k ≤ l.length
      · simp only [chunksAux, if_pos hc]
        have hdrop : (l.drop k).length ≤ f := by
          simp only [List.length_drop]; omega
        have hdrop' : (l.drop k).length ≤ f' := by
          simp only [List.length_drop]; omega
        rw [ih f' (l.drop k) hdrop hdrop']
      · simp only [chunksAux, if_neg hc]

/-- `chunks_exact(k)` yields exactly `⌊len / k⌋` chunks. -/
lemma chunksAux_length (k : Nat) (hk : 0 < k) :
    ∀ (fuel : Nat) (l : List Nat), l.length ≤ fuel →
      (chunksAux fuel k l).length = l.length / k := by
  intro fuel
  induction fuel with
  | zero =>
    intro l hl
    have : l = [] := List.eq_nil_of_length_eq_zero (Nat.le_zero.mp hl)
    subst this
    simp [chunksAux]
  | succ f ih =>
    intro l hl
    by_cases hc : k ≤ l.length
    · simp only [chunksAux, if_pos (And.intro hk hc), List.length_cons]
      have hdrop : (l.drop k).length ≤ f := by
        simp only [List.length_drop]; omega
      rw [ih (l.drop k) hdrop]
      simp only [List.length_drop]
      rw [Nat.div_eq_sub_div hk hc]
    · have : ¬ (0 < k ∧ k ≤ l.length) := by tauto
      simp only [chunksAux, if_neg this, List.length_nil]
      exact (Nat.div_eq_of_lt (by omega)).symm

/-- Appending a partial group (shorter than `k`) to a buffer of complete
groups does not change the chunk decomposition. -/
lemma chunksAux_append (k : Nat) (hk : 0 < k) :
    ∀ (fuel : Nat) (l extra : List Nat), k ∣ l.length →
      extra.length < k → l.length + extra.length ≤ fuel →
      chunksAux fuel k (l ++ extra) = chunksAux fuel k l := by
  intro fuel
  induction fuel with
  | zero =>
    intro l extra _ _ hle
    have hl : l = [] := List.eq_nil_of_length_eq_zero (by omega)
    have he : extra = [] := List.eq_nil_of_length_eq_zero (by omega)
    subst hl; subst he; rfl
  | succ f ih =>
    intro l extra hdvd hes hle
    by_cases hc : k ≤ l.length
    · have hc' : 0 < k ∧ k ≤ (l ++ extra).length := by
        simp only [List.length_append]; omega
      simp only [chunksAux, if_pos hc', if_pos (And.intro hk hc)]
      have htake : (l ++ extra).take k = l.take k := by
        rw [List.take_append_eq_append_take]
        simp [Nat.sub_eq_zero_of_le hc]
      have hdropa : (l ++ extra).drop k = l.drop k ++ extra := by
        rw [List.drop_append_eq_append_drop]
        simp [Nat.sub_eq_zero_of_le hc]
      rw [htake, hdropa]
      congr 1
      have hdl : (l.drop k).length + extra.length ≤ f := by
        rw [List.length_drop]; omega
      exact ih (l.drop k) extra
        (by simpa [List.length_drop] using Nat.dvd_sub' hdvd dvd_rfl)
        hes hdl
    · have hlz : l.length = 0 := by
        rcases Nat.eq_zero_or_pos l.length with h0 | hpos
        · exact h0
        · exact absurd (Nat.le_of_dvd hpos hdvd) hc
      have hl : l = [] := List.eq_nil_of_length_eq_zero hlz
      subst hl
      simp only [List.nil_append]
      have h1 : ¬ (0 < k ∧ k ≤ extra.length) := by
        intro h; omega
      have h2 : ¬ (0 < k ∧ k ≤ ([] : List Nat).length) := by
        intro h; simp at h; omega
      simp only [chunksAux, if_neg h1, if_neg h2]

/-- Chunking a replicated buffer of `m` whole groups. -/
lemma chunksAux_replicate (k x : Nat) (hk : 0 < k) :
    ∀ (m fuel : Nat), m * k ≤ fuel →
      chunksAux fuel k (List.replicate (m * k) x) =
        List.replicate m (List.replicate k x) := by
  intro m
  induction m with
  | zero =>
    intro fuel _
    cases fuel with
    | zero => rfl
    | succ f =>
      have : ¬ (0 < k ∧ k ≤ (List.replicate (0 * k) x).length) := by
        simp; omega
      simp only [chunksAux, if_neg this, List.replicate]
  | succ m ih =>
    intro fuel hle
    have hfl : 0 < fuel := by
      have : 0 < (m + 1) * k := Nat.mul_pos (Nat.succ_pos m) hk
      omega
    obtain ⟨f, rfl⟩ : ∃ f, fuel = f + 1 := ⟨fuel - 1, by omega⟩
    have hcond : 0 < k ∧ k ≤ (List.replicate ((m + 1) * k) x).length := by
      constructor
      · exact hk
      · simp [List.length_replicate, Nat.succ_mul]
    simp only [chunksAux, if_pos hcond]
    have htake : (List.replicate ((m + 1) * k) x).take k = List.replicate k x := by
      rw [List.take_replicate]
      congr 1
      have : k ≤ (m + 1) * k := by
        calc k = 1 * k := (Nat.one_mul k).symm
        _ ≤ (m + 1) * k := Nat.mul_le_mul_right k (by omega)
      omega
    have hdropr : (List.replicate ((m + 1) * k) x).drop k =
        List.replicate (m * k) x := by
      rw [List.drop_replicate]
      congr 1
      simp [Nat.succ_mul]
    rw [htake, hdropr, ih f (by simp [Nat.succ_mul] at hle; omega)]
    rfl

/-- Flattening `m` copies of a `k`-element list. -/
lemma flatten_replicate_replicate (x : Nat) :
    ∀ (m k : Nat),
      (List.replicate m (List.replicate k x)).flatten =
        List.replicate (m * k) x := by
  intro m
  induction m with
  | zero => intro k; simp
  | succ m ih =>
    intro k
    simp only [List.replicate, List.flatten_cons, ih, Nat.succ_mul]
    rw [Nat.add_comm (m * k) k, ← List.replicate_add]

/-- Each encoded pixel group occupies `chunk_size / 8` bytes. -/
lemma re_encode_pixel_group_length (pf : PixelFormat) (pixels : List Nat)
    (d c : Nat) :
    (re_encode_pixel_group pf pixels d c).length = c % 256 / 8 := by
  simp [re_encode_pixel_group, chunkBytes]

/-- Length of a flattened map whose images all have length `c`. -/
lemma flatten_map_length_const {α : Type} (f : α → List Nat) (c : Nat) :
    ∀ L : List α, (∀ x ∈ L, (f x).length = c) →
      ((L.map f).flatten).length = L.length * c := by
  intro L
  induction L with
  | nil => intro _; simp
  | cons a t ih =>
    intro h
    simp only [List.map_cons, List.flatten_cons, List.length_append,
      List.length_cons, h a (by simp), ih (fun x hx => h x (by simp [hx])),
      Nat.succ_mul]
    omega

/-- An all-ones group of `k` pixels at widths `[8]^k` re-encodes to `k`
bytes of `0xFF`, for any group size the 64-bit accumulator can hold. -/
lemma re_encode_pixel_group_all_ones (k : Nat) (h1 : 1 ≤ k) (h8 : k ≤ 8) :
    re_encode_pixel_group ⟨List.replicate k 8, 0, 0⟩ (List.replicate k 255)
      8 (8 * k) = List.replicate k 255 := by
  interval_cases k <;> decide

/-! ## Claim theorems for the re-encoder -/

/-- C1: encoding one group of eight `0xFF` pixels at source depth 8 with
widths `[3]*8`, `left_pad = 0`, `right_pad = 8` (chunk size 32) yields
exactly `[0x00, 0xFF, 0xFF, 0xFF]`, least-significant byte first; and
three `0xFF` pixels with widths `[5,6,5]` and zero pads (chunk size 16)
yield exactly `[0xFF, 0xFF]`. -/
theorem re_encode_pixel_group_canonical :
    re_encode_pixel_group ⟨[3, 3, 3, 3, 3, 3, 3, 3], 0, 8⟩
        [255, 255, 255, 255, 255, 255, 255, 255] 8 32 =
      [0, 255, 255, 255] ∧
    re_encode_pixel_group ⟨[5, 6, 5], 0, 0⟩ [255, 255, 255] 8 16 =
      [255, 255] := by
  decide

/-- C2 counterexample: the format `W = [8,8]` with zero pads satisfies
`Σ W = source_depth × k`, yet an all-ones buffer of three bytes
re-encodes to only two bytes — `chunks_exact` silently drops the
trailing partial group, so the output length differs from the input
length. -/
theorem re_encode_all_ones_length_cex :
    ([8, 8] : List Nat).sum = 8 * 2 ∧
    re_encode ⟨[8, 8], 0, 0⟩ [255, 255, 255] 8 = [255, 255] ∧
    (re_encode ⟨[8, 8], 0, 0⟩ [255, 255, 255] 8).length ≠
      ([255, 255, 255] : List Nat).length := by
  decide

/-- C2 amended: for a pixel format with zero padding whose sub-pixel
widths are at most the source depth 8 and sum to `8 × k` (hence are all
exactly 8), with at most 8 sub-pixels per group (so the chunk fits the
64-bit accumulator), re-encoding an all-ones buffer whose length is a
whole number of groups yields an all-ones buffer of equal length. -/
theorem re_encode_all_ones (pf : PixelFormat) (m : Nat)
    (h8 : ∀ w ∈ pf.bit_depth, w ≤ 8)
    (hsum : pf.bit_depth.sum = 8 * pf.bit_depth.length)
    (hpos : 0 < pf.bit_depth.length)
    (hle : pf.bit_depth.length ≤ 8)
    (hlp : pf.left_pad_bits = 0) (hrp : pf.right_pad_bits = 0) :
    re_encode pf (List.replicate (m * pf.bit_depth.length) 255) 8 =
      List.replicate (m * pf.bit_depth.length) 255 := by
  obtain ⟨bd, lp, rp⟩ := pf
  simp only at h8 hsum hpos hle hlp hrp ⊢
  subst hlp; subst hrp
  have hbd : bd = List.replicate bd.length 8 :=
    eq_replicate_of_bounded_sum bd h8 hsum
  by_cases hfast : bd.length = 1 ∧ bd.getD 0 0 = 8
  · rw [re_encode, if_pos hfast]
  · rw [re_encode, if_neg (by simpa using hfast)]
    set k := bd.length with hkdef
    have hsum' : bd.sum = 8 * k := hsum
    have hchunk : chunkSize ⟨bd, 0, 0⟩ = 8 * k := by
      simp only [chunkSize]
      rw [Nat.zero_add, Nat.add_zero, hsum']
      exact Nat.mod_eq_of_lt (by omega)
    rw [re_encode_general]
    simp only [hchunk]
    have hchunks :
        chunksExact k (List.replicate (m * k) 255) =
          List.replicate m (List.replicate k 255) := by
      rw [chunksExact]
      exact chunksAux_replicate k 255 hpos m _ (by simp)
    have hbdk : bd = List.replicate k 8 := hbd
    rw [show (⟨bd, 0, 0⟩ : PixelFormat).bit_depth.length = k from rfl]
    rw [hchunks, hbdk, List.map_replicate,
      re_encode_pixel_group_all_ones k hpos hle,
      flatten_replicate_replicate]

/-- C2 witness: two whole groups at `W = [8,8]` re-encode all-ones to
all-ones of the same length. -/
theorem re_encode_all_ones_witness :
    re_encode ⟨[8, 8], 0, 0⟩ (List.replicate (2 * 2) 255) 8 =
      List.replicate (2 * 2) 255 :=
  re_encode_all_ones ⟨[8, 8], 0, 0⟩ 2 (by decide) (by decide) (by decide)
    (by decide) rfl rfl

/-- C3 counterexample: with `k = 1`, `W = [source_depth]` and a
non-zero right pad, `re_encode` still passes the buffer through
unchanged, even though the general per-group rule would emit the padded
two-byte chunk `[0x00, 0xFF]` — the fast path never consults the
pads. -/
theorem re_encode_fast_path_pad_cex :
    re_encode ⟨[8], 0, 8⟩ [255] 8 = [255] ∧
    re_encode_general ⟨[8], 0, 8⟩ [255] 8 = [0, 255] ∧
    ([255] : List Nat) ≠ [0, 255] := by
  decide

/-- C3 amended: the pass-through fast path applies exactly when the
format has a single sub-pixel width equal to the source depth — the
padding fields are not consulted; whenever that two-part condition
fails, the general per-group encoding is applied. -/
theorem re_encode_fast_path_condition (pf : PixelFormat) (buffer : List Nat)
    (d : Nat) :
    (pf.bit_depth = [d] → re_encode pf buffer d = buffer) ∧
    (¬ (pf.bit_depth.length = 1 ∧ pf.bit_depth.getD 0 0 = d) →
      re_encode pf buffer d = re_encode_general pf buffer d) := by
  constructor
  · intro hbd
    rw [re_encode, if_pos (by simp [hbd])]
  · intro hcond
    rw [re_encode, if_neg hcond]

/-- C3 witness: the fast path fires with non-zero pads at `W = [8]`, and
the general rule fires for `W = [5,6,5]`. -/
theorem re_encode_fast_path_condition_witness :
    re_encode ⟨[8], 2, 6⟩ [7] 8 = [7] ∧
    re_encode ⟨[5, 6, 5], 0, 0⟩ [255, 255, 255] 8 =
      re_encode_general ⟨[5, 6, 5], 0, 0⟩ [255, 255, 255] 8 :=
  ⟨(re_encode_fast_path_condition ⟨[8], 2, 6⟩ [7] 8).1 rfl,
   (re_encode_fast_path_condition ⟨[5, 6, 5], 0, 0⟩ [255, 255, 255] 8).2
     (by decide)⟩

/-- C10: on the general path, `re_encode` emits exactly
`⌊len / k⌋` chunks of `chunk_size / 8` bytes and silently ignores a
trailing partial group: appending fewer than `k` extra bytes to a
whole-group buffer leaves the output unchanged, with no error
reported. -/
theorem re_encode_discards_remainder (pf : PixelFormat)
    (buffer extra : List Nat) (d : Nat)
    (hfast : ¬ (pf.bit_depth.length = 1 ∧ pf.bit_depth.getD 0 0 = d))
    (hk : 0 < pf.bit_depth.length) :
    (re_encode pf buffer d).length =
      buffer.length / pf.bit_depth.length * (chunkSize pf / 8) ∧
    (pf.bit_depth.length ∣ buffer.length →
      extra.length < pf.bit_depth.length →
      re_encode pf (buffer ++ extra) d = re_encode pf buffer d) := by
  have hlt : chunkSize pf < 256 := Nat.mod_lt _ (by norm_num)
  constructor
  · rw [re_encode, if_neg hfast, re_encode_general]
    rw [flatten_map_length_const _ (chunkSize pf / 8) _
      (fun g _ => by
        rw [re_encode_pixel_group_length, Nat.mod_eq_of_lt hlt])]
    rw [chunksExact, chunksAux_length _ hk _ _ (Nat.le_refl _)]
  · intro hdvd hes
    rw [re_encode, if_neg hfast, re_encode, if_neg hfast,
      re_encode_general, re_encode_general]
    rw [chunksExact, chunksExact]
    rw [chunksAux_append _ hk _ _ _ hdvd hes (by simp)]
    rw [chunksAux_fuel _ (buffer ++ extra).length buffer.length buffer
      (by simp) (Nat.le_refl _)]

/-- C10 witness: a four-byte buffer at `W = [5,6,5]` encodes its single
whole group to two bytes and ignores the trailing byte. -/
theorem re_encode_discards_remainder_witness :
    (re_encode ⟨[5, 6, 5], 0, 0⟩ [255, 255, 255] 8).length =
      3 / 3 * (chunkSize ⟨[5, 6, 5], 0, 0⟩ / 8) ∧
    re_encode ⟨[5, 6, 5], 0, 0⟩ ([255, 255, 255] ++ [7]) 8 =
      re_encode ⟨[5, 6, 5], 0, 0⟩ [255, 255, 255] 8 :=
  ⟨(re_encode_discards_remainder ⟨[5, 6, 5], 0, 0⟩ [255, 255, 255] [7] 8
      (by decide) (by decide)).1,
   (re_encode_discards_remainder ⟨[5, 6, 5], 0, 0⟩ [255, 255, 255] [7] 8
      (by decide) (by decide)).2 (by decide) (by decide)⟩

/-! ## Claim theorems for the SL1 reader -/

/-- C4 counterexample: with `num_fade = 0`, `exp_time = 2` and
`exp_time_first = 10`, layer 0 is exposed for `exp_time = 2`, not for
`exp_time_first = 10` — the claimed identity `exposure_time(0) =
exp_time_first` fails when there are no fade layers. -/
theorem exposure_time_zero_fade_cex :
    PrintConfig.exposure_time
      ⟨"", 2, 10, 0, "", 0, "", 0, "", 0, 0, 0, "", 0, "", "", "", "", 0⟩ 0 =
      2 ∧ (2 : Rat) ≠ 10 := by
  constructor
  · rfl
  · norm_num

/-- C4 amended: for every layer index `i` the exposure is
`exp_time + (exp_time_first − exp_time) × ((num_fade − i) / num_fade)`
when `i < num_fade` and `exp_time` otherwise; `exposure_time(0) =
exp_time_first` holds whenever `num_fade > 0`, and
`exposure_time(num_fade) = exp_time` always. -/
theorem exposure_time_formula (c : PrintConfig) (i : Nat) :
    (i < c.num_fade →
      c.exposure_time i =
        c.exp_time + (c.exp_time_first - c.exp_time) *
          (((c.num_fade - i : Nat) : Rat) / (c.num_fade : Rat))) ∧
    (¬ i < c.num_fade → c.exposure_time i = c.exp_time) ∧
    (0 < c.num_fade → c.exposure_time 0 = c.exp_time_first) ∧
    c.exposure_time c.num_fade = c.exp_time := by
  refine ⟨?_, ?_, ?_, ?_⟩
  · intro h
    simp [PrintConfig.exposure_time, h]
  · intro h
    simp [PrintConfig.exposure_time, h]
  · intro h
    have hne : (c.num_fade : Rat) ≠ 0 := by
      exact_mod_cast Nat.pos_iff_ne_zero.mp h
    simp only [PrintConfig.exposure_time, if_pos h, Nat.sub_zero]
    rw [div_self hne]
    ring
  · simp [PrintConfig.exposure_time]

/-- C4 witness: the normative fade example (`exp_time_first = 10`,
`exp_time = 2`, `num_fade = 4`) starts at 10 and lands on 2. -/
theorem exposure_time_formula_witness :
    PrintConfig.exposure_time
        ⟨"", 2, 10, 0, "", 0, "", 0, "", 4, 0, 0, "", 0, "", "", "", "", 0⟩
        0 = 10 ∧
    PrintConfig.exposure_time
        ⟨"", 2, 10, 0, "", 0, "", 0, "", 4, 0, 0, "", 0, "", "", "", "", 0⟩
        4 = 2 :=
  ⟨(exposure_time_formula
      ⟨"", 2, 10, 0, "", 0, "", 0, "", 4, 0, 0, "", 0, "", "", "", "", 0⟩
      0).2.2.1 (by norm_num),
   (exposure_time_formula
      ⟨"", 2, 10, 0, "", 0, "", 0, "", 4, 0, 0, "", 0, "", "", "", "", 0⟩
      4).2.2.2⟩

/-- Membership is preserved by sorted insertion. -/
lemma mem_insertString (a x : String) :
    ∀ l : List String, a ∈ insertString x l ↔ a = x ∨ a ∈ l := by
  intro l
  induction l with
  | nil => simp [insertString]
  | cons y ys ih =>
    cases hcmp : lexLt y.toList x.toList with
    | true =>
      simp only [insertString, hcmp, cond_true, List.mem_cons, ih]
      tauto
    | false =>
      simp only [insertString, hcmp, cond_false, List.mem_cons]

/-- Sorting preserves membership. -/
lemma mem_sortStrings (a : String) :
    ∀ l : List String, a ∈ sortStrings l ↔ a ∈ l := by
  intro l
  induction l with
  | nil => simp [sortStrings]
  | cons y ys ih =>
    simp only [sortStrings, List.foldr_cons] at ih ⊢
    rw [mem_insertString, ih, List.mem_cons]

/-- An entry named in the archive is found by `by_name`. -/
lemma by_name_isSome (archive : List (String × List Nat)) (n : String)
    (h : n ∈ archive.map Prod.fst) : (by_name archive n).isSome = true := by
  rw [by_name]
  obtain ⟨e, he, hn⟩ := List.mem_map.mp h
  have hfind : (archive.find? (fun e => e.1 = n)).isSome = true := by
    simp only [List.find?_isSome]
    exact ⟨e, he, by simp [hn]⟩
  obtain ⟨v, hv⟩ := Option.isSome_iff_exists.mp hfind
  rw [hv]
  rfl

/-- C8: on an opened SL1 archive, `get_layer_data(i)` yields a layer
record exactly when `i < layer_count`.  (The Rust reader fetches each
layer independently by name from the zip archive, so distinct in-range
indices may be read in any order with the same result; the embedding is
accordingly a pure function of the opened archive.) -/
theorem get_layer_data_some_iff (cfg : PrintConfig)
    (archive : List (String × List Nat)) (i : Nat) :
    ((mkSl1 cfg archive).get_layer_data i).isSome = true ↔
      i < (mkSl1 cfg archive).get_layer_count := by
  rw [Sl1.get_layer_count]
  constructor
  · intro h
    by_contra hlt
    rw [Sl1.get_layer_data, dif_neg hlt] at h
    exact Bool.false_ne_true h
  · intro h
    rw [Sl1.get_layer_data, dif_pos h]
    have hmem : (mkSl1 cfg archive).frame_list.get ⟨i, h⟩ ∈
        (mkSl1 cfg archive).frame_list := List.get_mem _ _ h
    have hmem2 : (mkSl1 cfg archive).frame_list.get ⟨i, h⟩ ∈
        archive.map Prod.fst := by
      have := (mem_sortStrings _ _).mp hmem
      exact List.mem_of_mem_filter this
    have hsome := by_name_isSome (mkSl1 cfg archive).archive _ hmem2
    obtain ⟨bytes, hb⟩ := Option.isSome_iff_exists.mp hsome
    rw [hb]
    rfl

/-- C8 witness: the first layer of a concrete two-layer archive is
fetched successfully. -/
theorem get_layer_data_some_iff_witness :
    ((mkSl1
        ⟨"", 2, 10, 0, "", 0, "", 0, "", 0, 0, 0, "", 0, "", "", "", "", 0⟩
        [("config.ini", [1]), ("b.png", [2, 3]), ("a.png", [4])]).get_layer_data
        0).isSome = true :=
  (get_layer_data_some_iff
      ⟨"", 2, 10, 0, "", 0, "", 0, "", 0, 0, 0, "", 0, "", "", "", "", 0⟩
      [("config.ini", [1]), ("b.png", [2, 3]), ("a.png", [4])] 0).mpr
    (by decide)

/-! ## Claim theorems for the gcode protocol and comms handler -/

/-- A concrete gcode configuration used to instantiate theorems. -/
def sampleGcodeConfig : GcodeConfig :=
  { boot := "G90"
    shutdown_command := "M84"
    home_command := "G28"
    move_command := "G1"
    manual_move_command := none
    print_start := ""
    print_end := ""
    layer_start := ""
    cure_start := ""
    cure_end := ""
    move_sync := "Z_move_comp"
    move_timeout := 20
    status_check := "M119"
    status_desired := "ready" }

/-- A concrete gcode client with one caller-set variable bound. -/
def sampleGcode : Gcode :=
  { config := sampleGcodeConfig
    state := { z := 0, z_microns := 0, curing := false }
    gcode_substitutions := [("speed", "600")]
    serial_comms := { incoming := [], outgoing := [] } }

/-- When every capture name resolves, the substitution loop succeeds. -/
lemma substLoop_ok (subs : List (String × String)) (code : String) :
    ∀ (caps : List String) (acc : String),
      (∀ n ∈ caps, (lookupSub subs n).isSome = true) →
      ∃ s, substLoop subs code caps acc = .ok s := by
  intro caps
  induction caps with
  | nil => intro acc _; exact ⟨acc, rfl⟩
  | cons n rest ih =>
    intro acc h
    obtain ⟨v, hv⟩ := Option.isSome_iff_exists.mp (h n (by simp))
    simp only [substLoop, hv]
    exact ih _ (fun m hm => h m (by simp [hm]))

/-- When some capture name is unbound, the substitution loop hits the
panic, reporting a missing name and the template. -/
lemma substLoop_panics (subs : List (String × String)) (code : String) :
    ∀ (caps : List String) (acc : String),
      (∃ n ∈ caps, lookupSub subs n = none) →
      ∃ n, substLoop subs code caps acc = .error (.panicMissing n code) := by
  intro caps
  induction caps with
  | nil => intro acc h; simp at h
  | cons n rest ih =>
    intro acc h
    cases hv : lookupSub subs n with
    | none => exact ⟨n, by simp only [substLoop, hv]⟩
    | some v =>
      obtain ⟨n', hn', hnone⟩ := h
      rcases List.mem_cons.mp hn' with rfl | hmem
      · rw [hv] at hnone; cases hnone
      · have := ih (replaceStr acc (braced n) v) ⟨n', hmem, hnone⟩
        simpa only [substLoop, hv] using this

/-- C6 counterexample: a template with the unknown token `foo` makes
`parse_gcode` hit the `panic!` (aborting the process); the failure is a
panic, not a returned `ConfigurationError`. -/
theorem parse_gcode_panics_cex :
    (parse_gcode sampleGcode "G1 X\x7bfoo\x7d").2 =
      .error (.panicMissing "foo" "G1 X\x7bfoo\x7d") ∧
    OdFailure.panicMissing "foo" "G1 X\x7bfoo\x7d" ≠
      OdFailure.err .ConfigurationError := by
  exact ⟨rfl, by decide⟩

/-- C6 amended: after the reserved `z` and `curing` variables are
populated, a template whose capture names all resolve substitutes
successfully, and a template with an unresolved capture name fails by
panicking (with the missing name and the template in the message) rather
than by returning a `ConfigurationError`. -/
theorem parse_gcode_token_resolution (g : Gcode) (code : String) :
    ((∀ n ∈ scanCaptures code.toList,
        (lookupSub (add_state_variables g).gcode_substitutions n).isSome =
          true) →
      ∃ s, (parse_gcode g code).2 = .ok s) ∧
    ((∃ n ∈ scanCaptures code.toList,
        lookupSub (add_state_variables g).gcode_substitutions n = none) →
      ∃ n, (parse_gcode g code).2 = .error (.panicMissing n code)) := by
  constructor
  · intro h
    exact substLoop_ok (add_state_variables g).gcode_substitutions code
      (scanCaptures code.toList) code h
  · intro h
    exact substLoop_panics (add_state_variables g).gcode_substitutions code
      (scanCaptures code.toList) code h

/-- C6 witness: a fully resolvable template substitutes (to the mapped
values), while an unknown token panics. -/
theorem parse_gcode_token_resolution_witness :
    (∃ s, (parse_gcode sampleGcode "G1 Z\x7bz\x7d F\x7bspeed\x7d").2 =
      .ok s) ∧
    (∃ n, (parse_gcode sampleGcode "G1 X\x7bfoo\x7d").2 =
      .error (.panicMissing n "G1 X\x7bfoo\x7d")) ∧
    (parse_gcode sampleGcode "G1 Z\x7bz\x7d F\x7bspeed\x7d").2 =
      .ok "G1 Z0 F600" :=
  ⟨(parse_gcode_token_resolution sampleGcode "G1 Z\x7bz\x7d F\x7bspeed\x7d").1
      (by decide),
   (parse_gcode_token_resolution sampleGcode "G1 X\x7bfoo\x7d").2
      ⟨"foo", by decide, by decide⟩,
   rfl⟩

/-- Success of the await loop is exactly a matching arrival. -/
lemma await_response_ok_iff (expect : String) :
    ∀ arrivals : List String,
      (await_response expect arrivals = .ok () ↔
        ∃ l ∈ arrivals, containsSub l expect = true) := by
  intro arrivals
  induction arrivals with
  | nil => simp [await_response]
  | cons l rest ih =>
    by_cases hc : containsSub l expect = true
    · simp [await_response, hc]
    · simp [await_response, hc, ih]

/-- The await loop yields success or a hardware error, nothing else. -/
lemma await_response_cases (expect : String) :
    ∀ arrivals : List String,
      await_response expect arrivals = .ok () ∨
        await_response expect arrivals = .error .HardwareError := by
  intro arrivals
  induction arrivals with
  | nil => exact Or.inr rfl
  | cons l rest ih =>
    by_cases hc : containsSub l expect = true
    · exact Or.inl (by simp [await_response, hc])
    · simpa [await_response, hc] using ih

/-- No matching arrival before the timeout means a hardware error. -/
lemma await_response_timeout (expect : String) (arrivals : List String)
    (h : ∀ l ∈ arrivals, containsSub l expect = false) :
    await_response expect arrivals = .error .HardwareError := by
  rcases await_response_cases expect arrivals with hok | herr
  · obtain ⟨l, hl, hc⟩ := (await_response_ok_iff expect arrivals).mp hok
    rw [h l hl] at hc
    cases hc
  · exact herr

/-- A token-free template sent with `send_and_await_gcode` fails with a
(wrapped) `HardwareError` when no arriving line contains the expected
substring. -/
lemma send_and_await_gcode_timeout (g : Gcode) (code expect : String)
    (arrivals : List String) (hcaps : scanCaptures code.toList = [])
    (hmiss : ∀ l ∈ arrivals, containsSub l expect = false) :
    (send_and_await_gcode g code expect arrivals).2 =
      .error (.err .HardwareError) := by
  have hcaps2 : scanCaptures code.data = [] := hcaps
  have hp : parse_gcode g code = (add_state_variables g, .ok code) := by
    simp [parse_gcode, hcaps2, substLoop]
  rw [send_and_await_gcode, hp]
  simp [send_and_await, await_response_timeout expect arrivals hmiss]

/-- C7: `send_and_await` first flushes the incoming buffer, then
enqueues the substituted command; it succeeds exactly when some line
arriving before the timeout contains the expected substring, and
otherwise fails with `HardwareError`.  Consequently a move whose
`move_sync` reply never arrives within the timeout fails with a
`HardwareError`. -/
theorem send_and_await_spec (h : InternalCommsHandler)
    (message expect : String) (arrivals : List String) (g : Gcode) (z : Nat)
    (sp : Rat) (man : Bool) :
    ((send_and_await h message expect arrivals).1.outgoing =
      h.outgoing ++ [message]) ∧
    ((send_and_await h message expect arrivals).1.incoming = []) ∧
    ((send_and_await h message expect arrivals).2 = .ok () ↔
      ∃ l ∈ arrivals, containsSub l expect = true) ∧
    ((∀ l ∈ arrivals, containsSub l expect = false) →
      (send_and_await h message expect arrivals).2 =
        .error .HardwareError) ∧
    (scanCaptures (chooseMoveCommand g man).toList = [] →
      (∀ l ∈ arrivals, containsSub l g.config.move_sync = false) →
      (move_z g z sp man arrivals).2 = .error (.err .HardwareError)) := by
  refine ⟨rfl, rfl, await_response_ok_iff expect arrivals, ?_, ?_⟩
  · intro hmiss
    exact await_response_timeout expect arrivals hmiss
  · intro hcaps hmiss
    have hkey := send_and_await_gcode_timeout
      (add_print_variable { g with state := setPosition g.state z } "speed"
        (toString (sp * 60)))
      (chooseMoveCommand g man) g.config.move_sync arrivals hcaps hmiss
    simp only [move_z]
    rcases hsc : send_and_await_gcode
        (add_print_variable { g with state := setPosition g.state z } "speed"
          (toString (sp * 60)))
        (chooseMoveCommand g man) g.config.move_sync arrivals with ⟨g3, r⟩
    rw [hsc] at hkey
    have hr : r = .error (.err .HardwareError) := hkey
    subst hr
    rfl

/-- C7 witness: a matching arrival yields success; a move whose
`move_sync` substring never arrives fails with a `HardwareError`. -/
theorem send_and_await_spec_witness :
    (send_and_await ⟨["junk"], ["old"]⟩ "G28" "ok" ["busy", "ok 0"]).2 =
      .ok () ∧
    (move_z sampleGcode 5000 5 false ["nope"]).2 =
      .error (.err .HardwareError) :=
  ⟨(send_and_await_spec ⟨["junk"], ["old"]⟩ "G28" "ok" ["busy", "ok 0"]
      sampleGcode 0 0 false).2.2.1.mpr ⟨"ok 0", by decide, by decide⟩,
   (send_and_await_spec ⟨["junk"], ["old"]⟩ "G28" "ok" ["nope"] sampleGcode
      5000 5 false).2.2.2.2 (by decide) (by decide)⟩

/-- The gcode client's mirrored physical state survives
`send_and_await_gcode` unchanged: neither variable population, parsing,
nor the comms exchange touches it. -/
lemma send_and_await_gcode_state (g : Gcode) (code expect : String)
    (arrivals : List String) :
    (send_and_await_gcode g code expect arrivals).1.state = g.state := by
  rw [send_and_await_gcode]
  rcases hp : parse_gcode g code with ⟨g', r⟩
  have hg' : g'.state = g.state := by
    have h1 : g' = (parse_gcode g code).1 := by rw [hp]
    rw [h1]
    rfl
  cases r with
  | error f => exact hg'
  | ok parsed => exact hg'

/-- C9: `move_z` mirrors the target position with `set_position` before
awaiting the `move_sync` reply, so the mirrored state holds the target
micron position (and its derived millimetre value) whatever the await
returns — in particular a timed-out move leaves the mirror at the
target, not at the pre-move position. -/
theorem move_z_mirror_target (g : Gcode) (z : Nat) (sp : Rat) (man : Bool)
    (arrivals : List String) :
    (move_z g z sp man arrivals).1.state.z_microns = z ∧
    (move_z g z sp man arrivals).1.state.z = (z : Rat) / 1000 := by
  simp only [move_z]
  rcases hsc : send_and_await_gcode
      (add_print_variable { g with state := setPosition g.state z } "speed"
        (toString (sp * 60)))
      (chooseMoveCommand g man) g.config.move_sync arrivals with ⟨g3, r⟩
  have h3 : g3.state = setPosition g.state z := by
    have hpres := send_and_await_gcode_state
      (add_print_variable { g with state := setPosition g.state z } "speed"
        (toString (sp * 60)))
      (chooseMoveCommand g man) g.config.move_sync arrivals
    rw [hsc] at hpres
    exact hpres
  cases r with
  | ok a =>
    refine ⟨?_, ?_⟩ <;> simp [remove_print_variable, h3, setPosition]
  | error f =>
    refine ⟨?_, ?_⟩ <;> simp [h3, setPosition]

/-! ## Claim theorems for the print state machine -/

/-- C5 counterexample: booting to `Idle` and issuing `ManualCure(true)`
reaches a published `Idle` snapshot whose physical state has
`curing = true` — `idle_operation_handler` runs `wrapped_start_cure`
and `update_physical_state` stores the curing mirror into the `Idle`
variant, so `curing = true` does not imply the `Printing` state. -/
theorem curing_in_idle_cex :
    Reachable { hw := { z := 0, z_microns := 0, curing := true }
                st := .Idle { z := 0, z_microns := 0, curing := true }
                phase := .waiting
                layer_height_microns := 0 } ∧
    physicalStateOf (.Idle { z := 0, z_microns := 0, curing := true }) =
      some { z := 0, z_microns := 0, curing := true } ∧
    ({ z := 0, z_microns := 0, curing := true } : PhysicalState).curing =
      true ∧
    isPrinting (.Idle { z := 0, z_microns := 0, curing := true }) = false := by
  refine ⟨?_, rfl, rfl, rfl⟩
  have hstep : step (step initMachine .boot) (.manualCure true) =
      { hw := { z := 0, z_microns := 0, curing := true }
        st := .Idle { z := 0, z_microns := 0, curing := true }
        phase := .waiting
        layer_height_microns := 0 } := by decide
  exact hstep ▸
    Reachable.step (Reachable.step Reachable.init .boot) (.manualCure true)

/-- The inductive invariant behind the amended C5: away from the
exposure phase the curing flag is off, both in the gcode mirror and in
every published physical state outside `Printing`. -/
def CuringInv (m : Machine) : Prop :=
  match m.st with
  | .Shutdown => m.phase = .waiting ∧ m.hw.curing = false
  | .Idle p => m.phase = .waiting ∧ m.hw.curing = false ∧ p.curing = false
  | .Printing _ _ _ p =>
    m.phase = .waiting → (m.hw.curing = false ∧ p.curing = false)

/-- The initial machine satisfies the invariant. -/
lemma curingInv_init : CuringInv initMachine := ⟨rfl, rfl⟩

/-- Every step that is not `ManualCure(true)` preserves the
invariant. -/
lemma curingInv_step (m : Machine) (e : Event) (h : CuringInv m)
    (he : e ≠ .manualCure true) : CuringInv (step m e) := by
  obtain ⟨hw, st, ph, lh⟩ := m
  cases st <;> cases ph <;> cases e <;>
    simp only [step] <;> (try split) <;>
    simp_all [CuringInv, setCuring, setPosition]

/-- The invariant is preserved along any run without
`ManualCure(true)`. -/
lemma curingInv_run (evs : List Event) :
    ∀ m, (∀ e ∈ evs, e ≠ .manualCure true) → CuringInv m →
      CuringInv (run m evs) := by
  induction evs with
  | nil => intro m _ h; exact h
  | cons e rest ih =>
    intro m hall h
    exact ih (step m e) (fun x hx => hall x (by simp [hx]))
      (curingInv_step m e h (hall e (by simp)))

/-- C5 amended: `ManualCure(true)` in `Idle` does publish an `Idle`
snapshot with `curing = true`; for every state reached by a sequence of
operations that never includes `ManualCure(true)`, `curing = true` in
the published physical state implies the `Printing` variant (with the
exposure phase active). -/
theorem curing_implies_printing_without_manual_cure (evs : List Event)
    (p : PhysicalState) (hnc : ∀ e ∈ evs, e ≠ Event.manualCure true)
    (hp : physicalStateOf (run initMachine evs).st = some p)
    (hc : p.curing = true) :
    isPrinting (run initMachine evs).st = true := by
  have hinv : CuringInv (run initMachine evs) :=
    curingInv_run evs initMachine hnc curingInv_init
  cases hst : (run initMachine evs).st with
  | Shutdown =>
    rw [hst] at hp
    cases hp
  | Idle q =>
    rw [hst] at hp
    have hq : q = p := by
      simpa [physicalStateOf] using hp
    simp only [CuringInv, hst] at hinv
    rw [hq] at hinv
    rw [hinv.2.2] at hc
    cases hc
  | Printing paused layer n q => rfl

/-- C5 witness: a print reaching its exposure phase without any manual
cure is in the `Printing` state while curing. -/
theorem curing_implies_printing_witness :
    isPrinting
      (run initMachine [.boot, .startPrint 1 50, .beginExposure]).st =
      true :=
  curing_implies_printing_without_manual_cure
    [.boot, .startPrint 1 50, .beginExposure]
    (setCuring (setPosition initMachine.hw ((0 + 1) * 50)) true)
    (by decide) rfl rfl

end Odyssey
